import Mathlib

/-!
Verification of the COBOL code-complexity analyser backend
(`backend/main.py`) against its specification.

Shallow embedding conventions:
* Python strings are `List Char`; `str.split("\n")` is `splitLines`,
  `str.upper()` / `str.lower()` are `pyUpper` / `pyLower` (ASCII case
  mapping, the fragment exercised by the analyser's keywords),
  `needle in hay` is `containsSub`, `hay.find(needle)` is `findSub`.
* Python whitespace (for `str.strip()`) is modelled by `pyIsSpace`
  over the six ASCII whitespace characters.
* `hash(code)` is a process-dependent salted integer in CPython; it is
  modelled as an explicit `Int` parameter `h` threaded into
  `fallback_analysis`, with Python `%` being `Int.emod` (both yield a
  result in `[0, n)` for a positive modulus).
* The Gemini round-trip either produces a reply string or raises; this
  is `ModelOutcome`.  Floats are modelled by `ℚ` (every reachable
  confidence value is integral).
-/

/-- ASCII whitespace as recognised by Python `str.strip()` / blankness
tests: space, tab, newline, carriage return, vertical tab, form feed. -/
def pyIsSpace (c : Char) : Bool :=
  c.toNat = 32 || c.toNat = 9 || c.toNat = 10 || c.toNat = 13 || c.toNat = 11 || c.toNat = 12

/-- ASCII digit test, modelling Python `str.isdigit` on ASCII input. -/
def pyIsDigit (c : Char) : Bool :=
  48 ≤ c.toNat && c.toNat ≤ 57

/-- ASCII upper-casing of one character, modelling `str.upper()`. -/
def pyUpperChar (c : Char) : Char :=
  if 97 ≤ c.toNat && c.toNat ≤ 122 then Char.ofNat (c.toNat - 32) else c

/-- ASCII lower-casing of one character, modelling `str.lower()`. -/
def pyLowerChar (c : Char) : Char :=
  if 65 ≤ c.toNat && c.toNat ≤ 90 then Char.ofNat (c.toNat + 32) else c

/-- `str.upper()` on a whole string. -/
def pyUpper (l : List Char) : List Char := l.map pyUpperChar

/-- `str.lower()` on a whole string. -/
def pyLower (l : List Char) : List Char := l.map pyLowerChar

/-- Does `hay` start with `needle`? -/
def startsWith : List Char → List Char → Bool
  | [], _ => true
  | _ :: _, [] => false
  | a :: as, b :: bs => a = b && startsWith as bs

/-- Python `needle in hay`: substring containment. -/
def containsSub (needle : List Char) : List Char → Bool
  | [] => startsWith needle []
  | c :: rest => startsWith needle (c :: rest) || containsSub needle rest

/-- Python `hay.find(needle)`: index of the first occurrence, `none` when
absent (Python returns `-1`). -/
def findSub (needle : List Char) : List Char → Option Nat
  | [] => if startsWith needle [] then some 0 else none
  | c :: rest =>
    if startsWith needle (c :: rest) then some 0
    else match findSub needle rest with
         | some i => some (i + 1)
         | none => none

/-- Python `code.split("\n")`: always returns at least one (possibly
empty) line; a trailing newline yields a trailing empty line. -/
def splitLines : List Char → List (List Char)
  | [] => [[]]
  | c :: rest =>
    if c = '\n' then [] :: splitLines rest
    else
      match splitLines rest with
      | [] => [[c]]
      | l :: ls => (c :: l) :: ls

/-- Numeric value of a digit run, as produced by `float(re_match)` on
the digits found by `re.search(r'\d+', ...)`. -/
def digitsVal (ds : List Char) : Nat :=
  ds.foldl (fun acc c => acc * 10 + (c.toNat - 48)) 0

/-- `re.search(r'\d+', s)`: value of the first maximal run of digits in
`s`, `none` when `s` has no digit. -/
def firstDigitsRun : List Char → Option Nat
  | [] => none
  | c :: rest =>
    if pyIsDigit c then some (digitsVal (c :: rest.takeWhile pyIsDigit))
    else firstDigitsRun rest

/-- The four counters produced by `extract_metrics` (main.py 86-113). -/
structure Metrics where
  loc : Nat
  ifElseBlocks : Nat
  variableCount : Nat
  nestedDepth : Nat
deriving Repr, DecidableEq

/-- The complexity classes the analyser can emit. -/
inductive Classification
  | Simple
  | Moderate
  | Complex
deriving Repr, DecidableEq

/-- The classification/confidence/text triple returned by
`analyze_with_gemini` and `fallback_analysis`. -/
structure ClassificationResult where
  classification : Classification
  confidenceScore : ℚ
  explanation : List Char
deriving Repr, DecidableEq

/-- Is a line blank in the sense of Python `not line.strip()`? -/
def isBlankLine (l : List Char) : Bool := l.all pyIsSpace

/-- `any(keyword in line for keyword in kws)` over an (already cased)
line. -/
def lineHasAnyKw (kws : List (List Char)) (l : List Char) : Bool :=
  kws.any (fun k => containsSub k l)

/-- Keywords counted for `if_else_blocks` (main.py 92). -/
def kwConditional : List (List Char) :=
  [String.toList "IF", String.toList "ELSE", String.toList "WHEN", String.toList "EVALUATE"]

/-- Does `line.strip()` start with a decimal digit (main.py 95:
`line.strip() and line.strip()[0].isdigit()`)?  The first character of
the stripped line is the first non-whitespace character. -/
def lineStartsDigit (l : List Char) : Bool :=
  match l.dropWhile pyIsSpace with
  | [] => false
  | c :: _ => pyIsDigit c

/-- main.py 102: the line (upper-cased) contains `IF`, `EVALUATE` or
`PERFORM` and does not contain `END-`, so it increments the depth. -/
def lineOpens (l : List Char) : Bool :=
  lineHasAnyKw [String.toList "IF", String.toList "EVALUATE", String.toList "PERFORM"] (pyUpper l)
    && !containsSub (String.toList "END-") (pyUpper l)

/-- main.py 105: the line (upper-cased) contains `END-IF`,
`END-EVALUATE` or `END-PERFORM`, so it decrements the depth. -/
def lineCloses (l : List Char) : Bool :=
  lineHasAnyKw [String.toList "END-IF", String.toList "END-EVALUATE", String.toList "END-PERFORM"]
    (pyUpper l)

/-- The depth loop of main.py 98-106: `nd` is `nested_depth` (the
running maximum), `cur` is `current_depth`; decrement is floored at zero
(`max(0, current_depth - 1)` is truncating `Nat` subtraction). -/
def nestedLoop : List (List Char) → Nat → Nat → Nat
  | [], nd, _ => nd
  | l :: ls, nd, cur =>
    if lineOpens l then nestedLoop ls (max nd (cur + 1)) (cur + 1)
    else if lineCloses l then nestedLoop ls nd (cur - 1)
    else nestedLoop ls nd cur

/-- `extract_metrics` (main.py 86-113).  List-comprehension lengths are
`countP` over the split lines. -/
def extract_metrics (code : List Char) : Metrics :=
  let lines := splitLines code
  { loc := lines.countP (fun l => !(isBlankLine l))
    ifElseBlocks := lines.countP (fun l => lineHasAnyKw kwConditional (pyUpper l))
    variableCount := lines.countP lineStartsDigit
    nestedDepth := nestedLoop lines 0 0 }

/-- Sub-score of `loc` (main.py 182-185). -/
def locScore (n : Nat) : Nat :=
  if n < 100 then 1 else if n < 300 then 2 else if n < 500 then 3 else 4

/-- Sub-score of `ifElseBlocks` (main.py 188-191). -/
def condScore (n : Nat) : Nat :=
  if n < 10 then 1 else if n < 25 then 2 else if n < 50 then 3 else 4

/-- Sub-score of `variableCount` (main.py 194-197). -/
def varScore (n : Nat) : Nat :=
  if n < 20 then 1 else if n < 50 then 2 else if n < 100 then 3 else 4

/-- Sub-score of `nestedDepth` (main.py 200-203). -/
def depthScore (n : Nat) : Nat :=
  if n < 3 then 1 else if n < 5 then 2 else if n < 7 then 3 else 4

/-- `complexity_score` accumulated by main.py 179-203. -/
def complexity_score (m : Metrics) : Nat :=
  locScore m.loc + condScore m.ifElseBlocks + varScore m.variableCount + depthScore m.nestedDepth

/-- The fixed fallback explanation string (main.py 219). -/
def fallbackExplanationText : List Char :=
  String.toList "Analysis performed using metrics-based classification. Enable Gemini API for more detailed analysis."

/-- `fallback_analysis` (main.py 174-220); `h` is the value of the
process-dependent `hash(code)`. -/
def fallback_analysis (h : Int) (code : List Char) : ClassificationResult :=
  if complexity_score (extract_metrics code) ≤ 6 then
    { classification := .Simple
      confidenceScore := ((85 + h % 10 : Int) : ℚ)
      explanation := fallbackExplanationText }
  else if complexity_score (extract_metrics code) ≤ 10 then
    { classification := .Moderate
      confidenceScore := ((75 + h % 15 : Int) : ℚ)
      explanation := fallbackExplanationText }
  else
    { classification := .Complex
      confidenceScore := ((80 + h % 15 : Int) : ℚ)
      explanation := fallbackExplanationText }

/-- Classification parsing of the model reply (main.py 146-150):
`"simple"` is checked first on the lowered reply, then `"complex"`,
else the default `Moderate`. -/
def parseClassification (response : List Char) : Classification :=
  if containsSub (String.toList "simple") (pyLower response) then .Simple
  else if containsSub (String.toList "complex") (pyLower response) then .Complex
  else .Moderate

/-- Confidence parsing of the model reply (main.py 152-162): find the
first occurrence of `"confidence"` in the lowered reply, slice the
original reply from that index to index+30, take the first digit run,
clamp to `[0,100]`; default `75.0`. -/
def parseConfidence (response : List Char) : ℚ :=
  match findSub (String.toList "confidence") (pyLower response) with
  | none => 75
  | some i =>
    match firstDigitsRun ((response.drop i).take 30) with
    | none => 75
    | some n => min 100 (max 0 (n : ℚ))

/-- Outcome of the external Gemini round-trip: a reply string, or any
raised error (network failure, timeout, malformed reply, ...). -/
inductive ModelOutcome
  | success (response : List Char)
  | failure
deriving Repr, DecidableEq

/-- `analyze_with_gemini` (main.py 115-172): without an API key or on
any raised error the heuristic fallback is returned; on success the
reply is parsed (explanation is the first 500 characters). -/
def analyze_with_gemini (hasApiKey : Bool) (outcome : ModelOutcome) (h : Int)
    (code : List Char) : ClassificationResult :=
  if !hasApiKey then fallback_analysis h code
  else
    match outcome with
    | .failure => fallback_analysis h code
    | .success response =>
      { classification := parseClassification response
        confidenceScore := parseConfidence response
        explanation := response.take 500 }

/-- Modelled from the spec: the per-line depth transition of §4.1 — an
opening line increments, a closing line decrements floored at zero,
any other line leaves the depth unchanged. -/
def depthStepSpec (d : Nat) (l : List Char) : Nat :=
  if lineOpens l then d + 1 else if lineCloses l then d - 1 else d

/-- Modelled from the spec: the running depth after each processed
line, starting from zero (`scanl` keeps the initial zero and every
intermediate value). -/
def runningDepths (ls : List (List Char)) : List Nat :=
  List.scanl depthStepSpec 0 ls

/-- Modelled from the spec: "the maximum depth observed, not the ending
depth" — the maximum over all running depth values. -/
def maxRunningDepth (ls : List (List Char)) : Nat :=
  (runningDepths ls).foldr max 0

/-- Modelled from the spec (claim C9): lower edge of the heuristic
confidence band for each class. -/
def bandLo : Classification → ℚ
  | .Simple => 85
  | .Moderate => 75
  | .Complex => 80

/-- Modelled from the spec (claim C9): upper edge of the heuristic
confidence band for each class. -/
def bandHi : Classification → ℚ
  | .Simple => 94
  | .Moderate => 89
  | .Complex => 94

/-! ### Character and substring lemmas -/

lemma pyIsSpace_le {c : Char} (h : pyIsSpace c = true) : c.toNat ≤ 32 := by
  unfold pyIsSpace at h
  simp only [Bool.or_eq_true, decide_eq_true_eq] at h
  omega

lemma not_space_of_pyUpperChar {c a : Char} (ha : pyIsSpace a = false)
    (h : pyUpperChar c = a) : pyIsSpace c = false := by
  unfold pyUpperChar at h
  split at h
  · rename_i hc
    simp only [Bool.and_eq_true, decide_eq_true_eq] at hc
    cases hps : pyIsSpace c
    · rfl
    · exact absurd (pyIsSpace_le hps) (by omega)
  · rw [h]; exact ha

lemma containsSub_head_mem {a : Char} {ns : List Char} :
    ∀ {l : List Char}, containsSub (a :: ns) l = true → a ∈ l := by
  intro l
  induction l with
  | nil => intro h; simp [containsSub, startsWith] at h
  | cons b bs ih =>
    intro h
    simp only [containsSub, Bool.or_eq_true] at h
    rcases h with h | h
    · simp only [startsWith, Bool.and_eq_true, decide_eq_true_eq] at h
      rw [h.1]
      exact List.mem_cons_self b bs
    · exact List.mem_cons_of_mem b (ih h)

lemma containsSub_eq_false_of_all_space {k : Char} {ks l : List Char}
    (hk : pyIsSpace k = false) (hl : l.all pyIsSpace = true) :
    containsSub (k :: ks) (pyUpper l) = false := by
  cases hc : containsSub (k :: ks) (pyUpper l)
  · rfl
  · exfalso
    have hmem := containsSub_head_mem hc
    simp only [pyUpper] at hmem
    rcases List.mem_map.mp hmem with ⟨c, hcl, hup⟩
    have h1 : pyIsSpace c = false := not_space_of_pyUpperChar hk hup
    have h2 : pyIsSpace c = true := List.all_eq_true.mp hl c hcl
    rw [h1] at h2
    exact Bool.false_ne_true h2

lemma lineHasAnyKw_false_of_all_space {kws : List (List Char)} {l : List Char}
    (hkws : (kws.all fun k => match k with | [] => false | c :: _ => !pyIsSpace c) = true)
    (hl : l.all pyIsSpace = true) :
    lineHasAnyKw kws (pyUpper l) = false := by
  cases ha : lineHasAnyKw kws (pyUpper l)
  · rfl
  · exfalso
    unfold lineHasAnyKw at ha
    rcases List.any_eq_true.mp ha with ⟨k, hkmem, hk⟩
    have hhead := List.all_eq_true.mp hkws k hkmem
    cases k with
    | nil => simp at hhead
    | cons c cs =>
      simp only [Bool.not_eq_true'] at hhead
      rw [containsSub_eq_false_of_all_space hhead hl] at hk
      exact Bool.false_ne_true hk

lemma lineOpens_false_of_all_space {l : List Char} (hl : l.all pyIsSpace = true) :
    lineOpens l = false := by
  unfold lineOpens
  rw [lineHasAnyKw_false_of_all_space (by decide) hl]
  rfl

lemma lineCloses_false_of_all_space {l : List Char} (hl : l.all pyIsSpace = true) :
    lineCloses l = false :=
  lineHasAnyKw_false_of_all_space (by decide) hl

lemma splitLines_all_space : ∀ {code : List Char}, code.all pyIsSpace = true →
    ∀ l ∈ splitLines code, l.all pyIsSpace = true := by
  intro code
  induction code with
  | nil =>
    intro _ l hl
    simp only [splitLines, List.mem_singleton] at hl
    rw [hl]; rfl
  | cons c rest ih =>
    intro h l hl
    simp only [List.all_cons, Bool.and_eq_true] at h
    by_cases hc : c = '\n'
    · rw [splitLines, if_pos hc] at hl
      rcases List.mem_cons.mp hl with h1 | h1
      · rw [h1]; rfl
      · exact ih h.2 l h1
    · rw [splitLines, if_neg hc] at hl
      cases hsp : splitLines rest with
      | nil => simp only [hsp, List.mem_singleton] at hl; rw [hl]; simp [h.1]
      | cons x xs =>
        simp only [hsp] at hl
        rcases List.mem_cons.mp hl with h1 | h1
        · have hx : x.all pyIsSpace = true := ih h.2 x (hsp ▸ List.mem_cons_self x xs)
          rw [h1]
          simp only [List.all_cons, Bool.and_eq_true]
          exact ⟨h.1, hx⟩
        · exact ih h.2 l (hsp ▸ List.mem_cons_of_mem x h1)

/-! ### Depth-loop lemmas -/

lemma nestedLoop_neutral : ∀ {ls : List (List Char)},
    (∀ l ∈ ls, lineOpens l = false ∧ lineCloses l = false) →
    ∀ nd cur, nestedLoop ls nd cur = nd := by
  intro ls
  induction ls with
  | nil => intro _ nd cur; rfl
  | cons l ls ih =>
    intro h nd cur
    have h1 := h l (List.mem_cons_self l ls)
    simp only [nestedLoop, h1.1, h1.2, Bool.false_eq_true, if_false]
    exact ih (fun x hx => h x (List.mem_cons_of_mem l hx)) nd cur

lemma le_foldr_max_scanl (f : Nat → List Char → Nat) (a : Nat) (ls : List (List Char)) :
    a ≤ (List.scanl f a ls).foldr max 0 := by
  cases ls with
  | nil =>
    simp only [List.scanl_nil, List.foldr_cons, List.foldr_nil]
    omega
  | cons x xs =>
    simp only [List.scanl_cons, List.singleton_append, List.foldr_cons]
    omega

lemma nestedLoop_eq_max_scanl : ∀ (ls : List (List Char)) (nd cur : Nat), cur ≤ nd →
    nestedLoop ls nd cur = max nd ((List.scanl depthStepSpec cur ls).foldr max 0) := by
  intro ls
  induction ls with
  | nil =>
    intro nd cur h
    simp only [nestedLoop, List.scanl_nil, List.foldr_cons, List.foldr_nil]
    omega
  | cons l ls ih =>
    intro nd cur h
    simp only [List.scanl_cons, List.singleton_append, List.foldr_cons]
    by_cases hO : lineOpens l = true
    · have hstep : depthStepSpec cur l = cur + 1 := by simp [depthStepSpec, hO]
      simp only [nestedLoop, hO, if_true, hstep]
      rw [ih (max nd (cur + 1)) (cur + 1) (le_max_right nd (cur + 1))]
      have hX := le_foldr_max_scanl depthStepSpec (cur + 1) ls
      omega
    · by_cases hC : lineCloses l = true
      · have hstep : depthStepSpec cur l = cur - 1 := by simp [depthStepSpec, hO, hC]
        simp only [nestedLoop, hO, hC, Bool.false_eq_true, if_false, if_true, hstep]
        rw [ih nd (cur - 1) (le_trans (Nat.sub_le cur 1) h)]
        omega
      · have hstep : depthStepSpec cur l = cur := by simp [depthStepSpec, hO, hC]
        simp only [nestedLoop, hO, hC, Bool.false_eq_true, if_false, hstep]
        rw [ih nd cur h]
        have hX := le_foldr_max_scanl depthStepSpec cur ls
        omega

lemma nestedLoop_le_countP : ∀ (ls : List (List Char)) (nd cur : Nat),
    nestedLoop ls nd cur ≤ max nd (cur + ls.countP lineOpens) := by
  intro ls
  induction ls with
  | nil =>
    intro nd cur
    simp only [nestedLoop, List.countP_nil]
    omega
  | cons l ls ih =>
    intro nd cur
    rw [List.countP_cons]
    cases hO : lineOpens l
    · cases hC : lineCloses l
      · simp only [nestedLoop, hO, hC, Bool.false_eq_true, if_false]
        have := ih nd cur
        omega
      · simp only [nestedLoop, hO, hC, Bool.false_eq_true, if_false, if_true]
        have := ih nd (cur - 1)
        omega
    · simp only [nestedLoop, hO, if_true]
      have := ih (max nd (cur + 1)) (cur + 1)
      omega

/-! ### Non-blankness of counted lines -/

lemma nonBlank_of_kwConditional {l : List Char}
    (h : lineHasAnyKw kwConditional (pyUpper l) = true) : (!isBlankLine l) = true := by
  cases hb : isBlankLine l
  · rfl
  · exfalso
    have hall : l.all pyIsSpace = true := hb
    rw [lineHasAnyKw_false_of_all_space (by decide) hall] at h
    exact Bool.false_ne_true h

lemma nonBlank_of_lineStartsDigit {l : List Char} (h : lineStartsDigit l = true) :
    (!isBlankLine l) = true := by
  cases hb : isBlankLine l
  · rfl
  · exfalso
    have hall : l.all pyIsSpace = true := hb
    have hd : l.dropWhile pyIsSpace = [] :=
      List.dropWhile_eq_nil_iff.mpr (fun x hx => List.all_eq_true.mp hall x hx)
    unfold lineStartsDigit at h
    rw [hd] at h
    exact Bool.false_ne_true h

lemma nonBlank_of_lineOpens {l : List Char} (h : lineOpens l = true) :
    (!isBlankLine l) = true := by
  cases hb : isBlankLine l
  · rfl
  · exfalso
    have hall : l.all pyIsSpace = true := hb
    rw [lineOpens_false_of_all_space hall] at h
    exact Bool.false_ne_true h

/-! ### All-whitespace input gives all-zero metrics -/

lemma extract_metrics_all_space {code : List Char} (h : code.all pyIsSpace = true) :
    extract_metrics code = ⟨0, 0, 0, 0⟩ := by
  have hlines := splitLines_all_space h
  unfold extract_metrics
  simp only [Metrics.mk.injEq]
  refine ⟨?_, ?_, ?_, ?_⟩
  · refine List.countP_eq_zero.mpr (fun l hl => ?_)
    have : isBlankLine l = true := hlines l hl
    simp [this]
  · refine List.countP_eq_zero.mpr (fun l hl => ?_)
    rw [lineHasAnyKw_false_of_all_space (by decide) (hlines l hl)]
    exact Bool.false_ne_true
  · refine List.countP_eq_zero.mpr (fun l hl => ?_)
    have hd : l.dropWhile pyIsSpace = [] :=
      List.dropWhile_eq_nil_iff.mpr (fun x hx => List.all_eq_true.mp (hlines l hl) x hx)
    unfold lineStartsDigit
    rw [hd]
    exact Bool.false_ne_true
  · exact nestedLoop_neutral
      (fun l hl => ⟨lineOpens_false_of_all_space (hlines l hl),
                    lineCloses_false_of_all_space (hlines l hl)⟩) 0 0

/-! ### Confidence bounds -/

lemma fallback_confidence_bounds (h : Int) (code : List Char) :
    bandLo (fallback_analysis h code).classification ≤ (fallback_analysis h code).confidenceScore ∧
    (fallback_analysis h code).confidenceScore ≤ bandHi (fallback_analysis h code).classification := by
  unfold fallback_analysis
  split
  · dsimp only [bandLo, bandHi]
    refine ⟨?_, ?_⟩
    · exact_mod_cast (by omega : (85 : Int) ≤ 85 + h % 10)
    · exact_mod_cast (by omega : (85 : Int) + h % 10 ≤ 94)
  · split
    · dsimp only [bandLo, bandHi]
      refine ⟨?_, ?_⟩
      · exact_mod_cast (by omega : (75 : Int) ≤ 75 + h % 15)
      · exact_mod_cast (by omega : (75 : Int) + h % 15 ≤ 89)
    · dsimp only [bandLo, bandHi]
      refine ⟨?_, ?_⟩
      · exact_mod_cast (by omega : (80 : Int) ≤ 80 + h % 15)
      · exact_mod_cast (by omega : (80 : Int) + h % 15 ≤ 94)

lemma bandLo_ge (c : Classification) : (75 : ℚ) ≤ bandLo c := by
  cases c <;> norm_num [bandLo]

lemma bandHi_le (c : Classification) : bandHi c ≤ (100 : ℚ) := by
  cases c <;> norm_num [bandHi]

lemma parseConfidence_bounds (r : List Char) :
    0 ≤ parseConfidence r ∧ parseConfidence r ≤ 100 := by
  unfold parseConfidence
  split
  · norm_num
  · split
    · norm_num
    · constructor
      · exact le_min (by norm_num) (le_max_left 0 _)
      · exact min_le_left _ _

/-! ### Claim theorems -/

/-- C4: for every input text, `nestedDepth` is nonnegative and equals the
maximum running depth over the lines in order — never the final depth —
under the rule that an opening-keyword line (containing `IF`, `EVALUATE`
or `PERFORM` but not `END-`) increments the depth and a closing line
(containing `END-IF`, `END-EVALUATE` or `END-PERFORM`) decrements it
floored at zero, even when markers are unbalanced. -/
theorem nestedDepth_is_max_running_depth (code : List Char) :
    0 ≤ (extract_metrics code).nestedDepth ∧
    (extract_metrics code).nestedDepth = maxRunningDepth (splitLines code) := by
  refine ⟨Nat.zero_le _, ?_⟩
  show nestedLoop (splitLines code) 0 0 = _
  rw [nestedLoop_eq_max_scanl (splitLines code) 0 0 (le_refl 0)]
  unfold maxRunningDepth runningDepths
  omega

/-- C10: for every input text, `ifElseBlocks`, `variableCount` and
`nestedDepth` are each bounded by `loc`, because every line contributing
to them is non-blank and hence counted in `loc`. -/
theorem counters_le_loc (code : List Char) :
    (extract_metrics code).ifElseBlocks ≤ (extract_metrics code).loc ∧
    (extract_metrics code).variableCount ≤ (extract_metrics code).loc ∧
    (extract_metrics code).nestedDepth ≤ (extract_metrics code).loc := by
  refine ⟨?_, ?_, ?_⟩
  · show (splitLines code).countP _ ≤ (splitLines code).countP _
    exact List.countP_mono_left (fun l _ h => nonBlank_of_kwConditional h)
  · show (splitLines code).countP _ ≤ (splitLines code).countP _
    exact List.countP_mono_left (fun l _ h => nonBlank_of_lineStartsDigit h)
  · show nestedLoop (splitLines code) 0 0 ≤ (splitLines code).countP _
    have h1 := nestedLoop_le_countP (splitLines code) 0 0
    have h2 : (splitLines code).countP lineOpens ≤
        (splitLines code).countP (fun l => !(isBlankLine l)) :=
      List.countP_mono_left (fun l _ h => nonBlank_of_lineOpens h)
    omega

/-- C9: the heuristic confidence lies in the per-class band — `[85, 94]`
for Simple, `[75, 89]` for Moderate, `[80, 94]` for Complex — and in
particular never below 75, for every hash value and input text. -/
theorem heuristic_confidence_bands (h : Int) (code : List Char) :
    bandLo (fallback_analysis h code).classification ≤ (fallback_analysis h code).confidenceScore ∧
    (fallback_analysis h code).confidenceScore ≤ bandHi (fallback_analysis h code).classification ∧
    75 ≤ (fallback_analysis h code).confidenceScore := by
  have hb := fallback_confidence_bounds h code
  exact ⟨hb.1, hb.2, le_trans (bandLo_ge _) hb.1⟩

/-- C3: on every classifier path — model reply parsing with its clamp, or
the heuristic fallback for any hash value — the returned confidence lies
in `[0, 100]`. -/
theorem confidence_in_range (key : Bool) (outcome : ModelOutcome) (h : Int) (code : List Char) :
    0 ≤ (analyze_with_gemini key outcome h code).confidenceScore ∧
    (analyze_with_gemini key outcome h code).confidenceScore ≤ 100 := by
  have hfb : ∀ (h : Int) (code : List Char),
      0 ≤ (fallback_analysis h code).confidenceScore ∧
      (fallback_analysis h code).confidenceScore ≤ 100 := by
    intro h code
    have hb := fallback_confidence_bounds h code
    have h1 := bandLo_ge (fallback_analysis h code).classification
    have h2 := bandHi_le (fallback_analysis h code).classification
    constructor <;> linarith [hb.1, hb.2]
  unfold analyze_with_gemini
  cases key
  · simpa using hfb h code
  · cases outcome with
    | failure => simpa using hfb h code
    | success r => simpa using parseConfidence_bounds r

/-- C5: when the external model call raises (modelled by
`ModelOutcome.failure`), `analyze_with_gemini` returns exactly the
heuristic result for the same text and hash, and its explanation is the
fixed fallback string — the failure is never surfaced. -/
theorem model_failure_falls_back (h : Int) (code : List Char) :
    analyze_with_gemini true .failure h code = fallback_analysis h code ∧
    (analyze_with_gemini true .failure h code).explanation = fallbackExplanationText := by
  constructor
  · rfl
  · show (fallback_analysis h code).explanation = _
    unfold fallback_analysis
    split
    · rfl
    · split
      · rfl
      · rfl

lemma band_score_bounds (a b c n : Nat) :
    1 ≤ (if n < a then 1 else if n < b then 2 else if n < c then 3 else 4) ∧
    (if n < a then 1 else if n < b then 2 else if n < c then 3 else 4) ≤ 4 := by
  by_cases h1 : n < a
  · simp only [if_pos h1]; omega
  · by_cases h2 : n < b
    · simp only [if_neg h1, if_pos h2]; omega
    · by_cases h3 : n < c
      · simp only [if_neg h1, if_neg h2, if_pos h3]; omega
      · simp only [if_neg h1, if_neg h2, if_neg h3]; omega

/-- C6: the heuristic `complexity_score` is the sum of four per-metric
sub-scores, each in `{1, 2, 3, 4}` (so the sum lies in `[4, 16]`), and
the classification is exactly Simple when the score is ≤ 6, Moderate
when ≤ 10, Complex otherwise — always one of the three classes. -/
theorem complexity_score_classification (h : Int) (code : List Char) :
    (1 ≤ locScore (extract_metrics code).loc ∧ locScore (extract_metrics code).loc ≤ 4) ∧
    (1 ≤ condScore (extract_metrics code).ifElseBlocks ∧
      condScore (extract_metrics code).ifElseBlocks ≤ 4) ∧
    (1 ≤ varScore (extract_metrics code).variableCount ∧
      varScore (extract_metrics code).variableCount ≤ 4) ∧
    (1 ≤ depthScore (extract_metrics code).nestedDepth ∧
      depthScore (extract_metrics code).nestedDepth ≤ 4) ∧
    (4 ≤ complexity_score (extract_metrics code) ∧
      complexity_score (extract_metrics code) ≤ 16) ∧
    (fallback_analysis h code).classification =
      (if complexity_score (extract_metrics code) ≤ 6 then Classification.Simple
       else if complexity_score (extract_metrics code) ≤ 10 then Classification.Moderate
       else Classification.Complex) ∧
    ((fallback_analysis h code).classification = Classification.Simple ∨
     (fallback_analysis h code).classification = Classification.Moderate ∨
     (fallback_analysis h code).classification = Classification.Complex) := by
  have h1 : 1 ≤ locScore (extract_metrics code).loc ∧
      locScore (extract_metrics code).loc ≤ 4 :=
    band_score_bounds 100 300 500 _
  have h2 : 1 ≤ condScore (extract_metrics code).ifElseBlocks ∧
      condScore (extract_metrics code).ifElseBlocks ≤ 4 :=
    band_score_bounds 10 25 50 _
  have h3 : 1 ≤ varScore (extract_metrics code).variableCount ∧
      varScore (extract_metrics code).variableCount ≤ 4 :=
    band_score_bounds 20 50 100 _
  have h4 : 1 ≤ depthScore (extract_metrics code).nestedDepth ∧
      depthScore (extract_metrics code).nestedDepth ≤ 4 :=
    band_score_bounds 3 5 7 _
  have hsum : 4 ≤ complexity_score (extract_metrics code) ∧
      complexity_score (extract_metrics code) ≤ 16 := by
    have e : complexity_score (extract_metrics code) =
        locScore (extract_metrics code).loc + condScore (extract_metrics code).ifElseBlocks +
        varScore (extract_metrics code).variableCount +
        depthScore (extract_metrics code).nestedDepth := rfl
    omega
  have hcls : (fallback_analysis h code).classification =
      (if complexity_score (extract_metrics code) ≤ 6 then Classification.Simple
       else if complexity_score (extract_metrics code) ≤ 10 then Classification.Moderate
       else Classification.Complex) := by
    unfold fallback_analysis
    split
    · rfl
    · split
      · rfl
      · rfl
  refine ⟨h1, h2, h3, h4, hsum, hcls, ?_⟩
  rw [hcls]
  split
  · exact Or.inl rfl
  · split
    · exact Or.inr (Or.inl rfl)
    · exact Or.inr (Or.inr rfl)

/-- C7: empty or whitespace-only input yields all-zero metrics, a
heuristic complexity score of 4, and classification Simple. -/
theorem whitespace_gives_zero_metrics (code : List Char) (h : Int)
    (hws : code.all pyIsSpace = true) :
    extract_metrics code = ⟨0, 0, 0, 0⟩ ∧
    complexity_score (extract_metrics code) = 4 ∧
    (fallback_analysis h code).classification = Classification.Simple := by
  have hm := extract_metrics_all_space hws
  refine ⟨hm, ?_, ?_⟩
  · rw [hm]
    decide
  · unfold fallback_analysis
    rw [hm]
    rw [if_pos (show complexity_score (⟨0, 0, 0, 0⟩ : Metrics) ≤ 6 by decide)]

/-- C7 witness: the concrete whitespace-only text `" \t\n "` satisfies
the hypothesis and the conclusion. -/
theorem whitespace_gives_zero_metrics_witness :
    (String.toList " \t\n ").all pyIsSpace = true ∧
    (extract_metrics (String.toList " \t\n ") = ⟨0, 0, 0, 0⟩ ∧
     complexity_score (extract_metrics (String.toList " \t\n ")) = 4 ∧
     (fallback_analysis 0 (String.toList " \t\n ")).classification = Classification.Simple) :=
  ⟨by decide, whitespace_gives_zero_metrics (String.toList " \t\n ") 0 (by decide)⟩

/-- C1 counterexample: the reply `"not confident, 150%"` does not contain
the substring `"confidence"` (`"confident"` is shorter), so the parser
returns the default 75.0 — not 100.0 as the claim states. -/
theorem confidence_parsing_cex :
    parseConfidence (String.toList "not confident, 150%") = 75 ∧ (75 : ℚ) ≠ 100 := by
  constructor
  · decide
  · decide

/-- C1 (amended): for a reply containing `"...confidence: 92 percent..."`
the parsed confidence is 92.0; for the reply `"not confident, 150%"` the
substring `"confidence"` does not occur, so the default 75.0 is used; in
general the parser locates the first case-insensitive occurrence of
`"confidence"`, scans the 30-character window starting at that
occurrence for the first run of digits, parses it and clamps to
`[0,100]`, and uses 75.0 when no occurrence or no digits are found. -/
theorem confidence_parsing (r : List Char) :
    parseConfidence (String.toList "...confidence: 92 percent...") = 92 ∧
    parseConfidence (String.toList "not confident, 150%") = 75 ∧
    (findSub (String.toList "confidence") (pyLower r) = none → parseConfidence r = 75) ∧
    (∀ i, findSub (String.toList "confidence") (pyLower r) = some i →
      firstDigitsRun ((r.drop i).take 30) = none → parseConfidence r = 75) ∧
    (∀ i n, findSub (String.toList "confidence") (pyLower r) = some i →
      firstDigitsRun ((r.drop i).take 30) = some n →
      parseConfidence r = min 100 (max 0 (n : ℚ))) := by
  refine ⟨by decide, by decide, ?_, ?_, ?_⟩
  · intro hn
    unfold parseConfidence
    rw [hn]
  · intro i hi hd
    unfold parseConfidence
    simp only [hi, hd]
  · intro i n hi hd
    unfold parseConfidence
    simp only [hi, hd]

/-- C1 witness: a reply with no occurrence of `"confidence"` parses to
the default 75.0. -/
theorem confidence_parsing_witness :
    parseConfidence (String.toList "no score given") = 75 :=
  (confidence_parsing (String.toList "no score given")).2.2.1 (by decide)

/-- C2 counterexample: the reply `"simple and complex"` contains both
substrings, yet parses as Simple — not Complex as the claim states. -/
theorem classification_parsing_cex :
    parseClassification (String.toList "simple and complex") = Classification.Simple ∧
    Classification.Simple ≠ Classification.Complex := by
  constructor
  · decide
  · decide

/-- C2 (amended): classification is found by case-insensitive substring
search with `"simple"` checked first: every reply containing `"simple"`
is classified Simple even when `"complex"` also occurs (`"simple"` wins
when both match); a reply containing `"complex"` but not `"simple"` is
Complex; a reply matching neither yields the default Moderate. -/
theorem classification_parsing (r : List Char) :
    (containsSub (String.toList "simple") (pyLower r) = true →
      parseClassification r = Classification.Simple) ∧
    (containsSub (String.toList "simple") (pyLower r) = false →
      containsSub (String.toList "complex") (pyLower r) = true →
      parseClassification r = Classification.Complex) ∧
    (containsSub (String.toList "simple") (pyLower r) = false →
      containsSub (String.toList "complex") (pyLower r) = false →
      parseClassification r = Classification.Moderate) := by
  refine ⟨fun h1 => ?_, fun h1 h2 => ?_, fun h1 h2 => ?_⟩
  · unfold parseClassification
    rw [if_pos h1]
  · unfold parseClassification
    rw [if_neg (by simpa using h1), if_pos h2]
  · unfold parseClassification
    rw [if_neg (by simpa using h1), if_neg (by simpa using h2)]

/-- C2 witness: a reply containing both `"simple"` and `"complex"`
parses as Simple. -/
theorem classification_parsing_witness :
    parseClassification (String.toList "simple and complex") = Classification.Simple :=
  (classification_parsing (String.toList "simple and complex")).1 (by decide)

/-- C8 (code bug): the heuristic confidence depends on the value of
Python's salted builtin `hash`, not only on the text — the same text
`"IF"` yields 85 when the process hash is 0 and 86 when it is 1, so the
confidence is not a stable function of the text content across runs. -/
theorem hash_salt_changes_confidence :
    (fallback_analysis 0 (String.toList "IF")).confidenceScore = 85 ∧
    (fallback_analysis 1 (String.toList "IF")).confidenceScore = 86 ∧
    (85 : ℚ) ≠ 86 := by
  refine ⟨by decide, by decide, by decide⟩
